import Mathlib

/-!
Verification of the cups-counter core (line-crossing counter, ByteTrack-style
tracker, drift monitor, parameter tuner) against its natural-language
specification.  The Python sources are shallowly embedded: coordinates,
confidences and metric samples become rationals, Python dicts become
insertion-ordered association lists, and the per-frame `update` methods become
pure state-passing functions.  Comparisons written in the source with a square
root (`|cross| < hysteresis_px * sqrt(len2)` and
`|cross| / sqrt(len2) > 2 * hysteresis_px`) are embedded in exactly equivalent
squared form so that every definition stays computable over `ℚ`.
-/

namespace CC

/-! ## Geometry utilities (core/utils.py) -/

abbrev Point := ℚ × ℚ

/-- Bounding box `(x1, y1, x2, y2)`. -/
structure BBox where
  x1 : ℚ
  y1 : ℚ
  x2 : ℚ
  y2 : ℚ
deriving DecidableEq

/-- Centroid of a bounding box (`core/utils.py::centroid`). -/
def centroid (b : BBox) : Point := ((b.x1 + b.x2) / 2, (b.y1 + b.y2) / 2)

/-- Parametric 2D segment-segment intersection (`core/utils.py::segment_intersect`).
Returns the intersection point of segments `p1p2` and `p3p4`, or `none` when the
denominator is tiny (parallel) or a parameter leaves `[0, 1]`. -/
def segIntersect (p1 p2 p3 p4 : Point) : Option Point :=
  let denom := (p1.1 - p2.1) * (p3.2 - p4.2) - (p1.2 - p2.2) * (p3.1 - p4.1)
  if |denom| < (1 : ℚ) / 10000000000 then none
  else
    let t := ((p1.1 - p3.1) * (p3.2 - p4.2) - (p1.2 - p3.2) * (p3.1 - p4.1)) / denom
    let u := -((p1.1 - p2.1) * (p1.2 - p3.2) - (p1.2 - p2.2) * (p1.1 - p3.1)) / denom
    if 0 ≤ t ∧ t ≤ 1 ∧ 0 ≤ u ∧ u ≤ 1 then
      some (p1.1 + t * (p2.1 - p1.1), p1.2 + t * (p2.2 - p1.2))
    else none

/-! ## Line counter data model (core/counting.py) -/

/-- Configured counting direction (`config.counting.direction`). -/
inductive LineDir where
  | barToCounter
  | counterToBar
deriving DecidableEq

/-- Named side of the counting line. -/
inductive Side where
  | bar
  | counter
deriving DecidableEq

/-- Direction of an emitted crossing event (`"in"` / `"out"`). -/
inductive Dir where
  | inn
  | out
deriving DecidableEq

/-- The counter's configuration slice (`LineCounter.__init__`). -/
structure LineCfg where
  lineStart : Point
  lineEnd : Point
  direction : LineDir
  hysteresisPx : ℚ
  minVisibleFrames : ℕ

/-- Cross product `(P - S) × (E - S)` used by `_determine_side`. -/
def sideCross (cfg : LineCfg) (p : Point) : ℚ :=
  (p.1 - cfg.lineStart.1) * (cfg.lineEnd.2 - cfg.lineStart.2)
    - (p.2 - cfg.lineStart.2) * (cfg.lineEnd.1 - cfg.lineStart.1)

/-- Squared length of the counting line, `|E - S|²`. -/
def lineLen2 (cfg : LineCfg) : ℚ :=
  (cfg.lineEnd.1 - cfg.lineStart.1) ^ 2 + (cfg.lineEnd.2 - cfg.lineStart.2) ^ 2

/-- `LineCounter._determine_side`.  The source test
`abs(cross) < hysteresis_px * sqrt(len2)` is embedded as
`0 ≤ hysteresis_px ∧ cross² < hysteresis_px² * len2`, which is equivalent for
every rational input (for negative `hysteresis_px` the source's right-hand side
is nonpositive, so the strict comparison with `abs` is false). -/
def determineSide (cfg : LineCfg) (p : Point) : Option Side :=
  let cross := sideCross cfg p
  if 0 ≤ cfg.hysteresisPx ∧ cross ^ 2 < cfg.hysteresisPx ^ 2 * lineLen2 cfg then none
  else
    some (match cfg.direction with
      | LineDir.barToCounter => if 0 < cross then Side.counter else Side.bar
      | LineDir.counterToBar => if 0 < cross then Side.bar else Side.counter)

/-- `LineCounter._check_crossing`: movement segment must intersect the line and
the two non-ambiguous sides must differ; the side transition maps to in/out per
the configured direction. -/
def checkCrossing (cfg : LineCfg) (prev curr : Point) : Option Dir :=
  match segIntersect prev curr cfg.lineStart cfg.lineEnd with
  | none => none
  | some _ =>
    match determineSide cfg prev, determineSide cfg curr with
    | some ps, some cs =>
      if ps = cs then none
      else
        match cfg.direction with
        | LineDir.barToCounter =>
          if ps = Side.bar ∧ cs = Side.counter then some Dir.inn
          else if ps = Side.counter ∧ cs = Side.bar then some Dir.out
          else none
        | LineDir.counterToBar =>
          if ps = Side.counter ∧ cs = Side.bar then some Dir.inn
          else if ps = Side.bar ∧ cs = Side.counter then some Dir.out
          else none
    | _, _ => none

/-- Numerator of the point-to-line distance computed inline in
`LineCounter.update` (lines 179-184):
`(y2-y1)*cx - (x2-x1)*cy + x2*y1 - y2*x1`. -/
def distNum (cfg : LineCfg) (p : Point) : ℚ :=
  (cfg.lineEnd.2 - cfg.lineStart.2) * p.1 - (cfg.lineEnd.1 - cfg.lineStart.1) * p.2
    + cfg.lineEnd.1 * cfg.lineStart.2 - cfg.lineEnd.2 * cfg.lineStart.1

/-- The source test `dist_to_line > hysteresis_px * 2` (with
`dist_to_line = |distNum| / sqrt(len2)`), embedded in the equivalent squared
form: for nonnegative `hysteresis_px` it is `distNum² > 4·hysteresis_px²·len2`,
and for negative `hysteresis_px` it always holds. -/
def movedAway (cfg : LineCfg) (p : Point) : Bool :=
  decide (cfg.hysteresisPx < 0)
    || decide (4 * cfg.hysteresisPx ^ 2 * lineLen2 cfg < distNum cfg p ^ 2)

/-- Per-track counter state (`LineCounter.track_states` values). -/
structure TrackState where
  lastCentroid : Option Point
  side : Option Side
  visibleFrames : ℕ
  crossed : Bool
deriving DecidableEq

/-- The defaultdict default for a freshly seen track. -/
def initTrackState : TrackState := ⟨none, none, 0, false⟩

/-- Entry of `current_tracks` built at the top of `LineCounter.update`. -/
structure TrackInfo where
  cent : Point
  bbox : BBox
  conf : ℚ
deriving DecidableEq

/-- A tracked detection `(x1, y1, x2, y2, conf, cls_id, track_id)`. -/
structure TDet where
  bbox : BBox
  conf : ℚ
  cls : ℕ
  tid : ℕ
deriving DecidableEq

/-- Centroid of a tracked detection's box. -/
def detCent (d : TDet) : Point := centroid d.bbox

/-- A crossing event (`ts_utc`, `direction`, `track_id`, `bbox`, `conf`). -/
structure CrossEvent where
  ts : ℚ
  direction : Dir
  trackId : ℕ
  bbox : BBox
  conf : ℚ
deriving DecidableEq

/-- Whole-counter state: insertion-ordered track-state dict plus running totals. -/
structure CState where
  states : List (ℕ × TrackState)
  inCount : ℕ
  outCount : ℕ
deriving DecidableEq

/-- Fresh counter (`LineCounter.__init__`). -/
def initCState : CState := ⟨[], 0, 0⟩

/-! ### Insertion-ordered dictionary operations (Python `dict` semantics) -/

/-- First-match lookup in an association list. -/
def dlookup {α : Type} : List (ℕ × α) → ℕ → Option α
  | [], _ => none
  | q :: rest, k => if q.1 = k then some q.2 else dlookup rest k

/-- Python-dict assignment: replace in place when the key exists, else append. -/
def dset {α : Type} : List (ℕ × α) → ℕ → α → List (ℕ × α)
  | [], k, v => [(k, v)]
  | q :: rest, k, v => if q.1 = k then (k, v) :: rest else q :: dset rest k v

/-- Python-dict deletion. -/
def derase {α : Type} (l : List (ℕ × α)) (k : ℕ) : List (ℕ × α) :=
  l.filter (fun q => q.1 ≠ k)

/-! ### LineCounter.update -/

/-- First loop of `LineCounter.update`: build `current_tracks` and bump each
present track's `visible_frames` (defaultdict access creates missing states). -/
def buildCurrent : List TDet → List (ℕ × TrackInfo) → List (ℕ × TrackState) →
    List (ℕ × TrackInfo) × List (ℕ × TrackState)
  | [], cur, sts => (cur, sts)
  | d :: rest, cur, sts =>
    let st := (dlookup sts d.tid).getD initTrackState
    buildCurrent rest
      (dset cur d.tid ⟨detCent d, d.bbox, d.conf⟩)
      (dset sts d.tid { st with visibleFrames := st.visibleFrames + 1 })

/-- The "reset crossed flag if track moved away" epilogue of the per-track body:
the flag is cleared when the new side is non-ambiguous and the centroid's
distance to the line exceeds twice the hysteresis width. -/
def clearAway (cfg : LineCfg) (c : Point) (b : Bool) : Bool :=
  if (determineSide cfg c).isSome && movedAway cfg c then false else b

/-- Event decision of the per-track body of `LineCounter.update`, on the
in-loop track state (its `visible_frames` has already been incremented by the
first loop): a crossing between the stored and current centroid, the `crossed`
latch clear, and `visible_frames` at or above the minimum. -/
def emitOf (cfg : LineCfg) (st : TrackState) (c : Point) : Option Dir :=
  match st.lastCentroid with
  | none => none
  | some prev =>
    match checkCrossing cfg prev c with
    | none => none
    | some d =>
      if st.crossed = false && decide (cfg.minVisibleFrames ≤ st.visibleFrames)
      then some d else none

/-- Body of the crossing loop of `LineCounter.update` for one track id.
The accumulator carries the track-state dict, the in/out totals and the events
emitted so far.  A track absent from the current frame only has its
`visible_frames` zeroed. -/
def processTrack (cfg : LineCfg) (current : List (ℕ × TrackInfo)) (ts : ℚ)
    (acc : List (ℕ × TrackState) × ℕ × ℕ × List CrossEvent) (t : ℕ) :
    List (ℕ × TrackState) × ℕ × ℕ × List CrossEvent :=
  match dlookup acc.1 t with
  | none => acc
  | some st =>
    match dlookup current t with
    | none => (dset acc.1 t { st with visibleFrames := 0 }, acc.2)
    | some info =>
      let c := info.cent
      let emit := emitOf cfg st c
      let ic := acc.2.1 + (if emit = some Dir.inn then 1 else 0)
      let oc := acc.2.2.1 + (if emit = some Dir.out then 1 else 0)
      let evs := acc.2.2.2 ++ (match emit with
        | some d => [⟨ts, d, t, info.bbox, info.conf⟩]
        | none => [])
      let st1 : TrackState :=
        { lastCentroid := some c
          side := determineSide cfg c
          visibleFrames := st.visibleFrames
          crossed := clearAway cfg c (if emit.isSome then true else st.crossed) }
      (dset acc.1 t st1, ic, oc, evs)

/-- The crossing loop of `LineCounter.update`, iterating over a snapshot of the
track-state dict's keys. -/
def crossLoop (cfg : LineCfg) (current : List (ℕ × TrackInfo)) (ts : ℚ) :
    List ℕ → List (ℕ × TrackState) × ℕ × ℕ × List CrossEvent →
    List (ℕ × TrackState) × ℕ × ℕ × List CrossEvent
  | [], acc => acc
  | t :: rest, acc => crossLoop cfg current ts rest (processTrack cfg current ts acc t)

/-- Cleanup loop of `LineCounter.update`: drop every state whose track is absent
from the current frame and whose `visible_frames` is zero. -/
def cleanup (current : List (ℕ × TrackInfo)) (sts : List (ℕ × TrackState)) :
    List (ℕ × TrackState) :=
  sts.filter (fun q => (dlookup current q.1).isSome || q.2.visibleFrames != 0)

/-- `LineCounter.update`: returns the new counter state and the list of events
emitted this frame. -/
def counterUpdate (cfg : LineCfg) (s : CState) (dets : List TDet) (ts : ℚ) :
    CState × List CrossEvent :=
  let bc := buildCurrent dets [] s.states
  let r := crossLoop cfg bc.1 ts (bc.2.map Prod.fst) (bc.2, s.inCount, s.outCount, [])
  (⟨cleanup bc.1 r.1, r.2.1, r.2.2.1⟩, r.2.2.2)

/-- Run `LineCounter.update` over a sequence of single-detection frames,
concatenating the emitted events. -/
def runSingle (cfg : LineCfg) (ts : ℚ) : CState → List TDet → CState × List CrossEvent
  | s, [] => (s, [])
  | s, d :: rest =>
    let r := counterUpdate cfg s [d] ts
    let r2 := runSingle cfg ts r.1 rest
    (r2.1, r.2 ++ r2.2)

/-! ## ByteTracker (core/tracking.py) -/

/-- A raw detection `(x1, y1, x2, y2, conf, cls_id)`. -/
structure Det where
  bbox : BBox
  conf : ℚ
  cls : ℕ
deriving DecidableEq

/-- Stored per-track data (`ByteTracker.tracks` values). -/
structure Trk where
  bbox : BBox
  conf : ℚ
  cls : ℕ
  age : ℕ
  lostFrames : ℕ
deriving DecidableEq

/-- Tracker state: insertion-ordered id→track dict plus the next fresh id. -/
structure TrkState where
  tracks : List (ℕ × Trk)
  nextId : ℕ
deriving DecidableEq

/-- Fresh tracker (`ByteTracker.__init__`, `next_track_id = 1`). -/
def initTrkState : TrkState := ⟨[], 1⟩

/-- Tracker configuration slice. -/
structure TrkCfg where
  trackThresh : ℚ
  matchThresh : ℚ
  minBoxArea : ℚ
  lostTtl : ℕ

/-- `ByteTracker._area`. -/
def boxArea (b : BBox) : ℚ := (b.x2 - b.x1) * (b.y2 - b.y1)

/-- `ByteTracker._iou`. -/
def iou (b1 b2 : BBox) : ℚ :=
  let xi1 := max b1.x1 b2.x1
  let yi1 := max b1.y1 b2.y1
  let xi2 := min b1.x2 b2.x2
  let yi2 := min b1.y2 b2.y2
  if xi2 ≤ xi1 ∨ yi2 ≤ yi1 then 0
  else
    let inter := (xi2 - xi1) * (yi2 - yi1)
    let union := boxArea b1 + boxArea b2 - inter
    if 0 < union then inter / union else 0

/-- Greedy best-IoU scan over an (enumerated) detection list: keep the first
index that strictly improves the best IoU while clearing the match threshold,
skipping indices in `skip`.  `best` starts as `(0, none)`. -/
def bestMatchAux (cfg : TrkCfg) (tb : BBox) :
    List Det → ℕ → List ℕ → ℚ × Option ℕ → ℚ × Option ℕ
  | [], _, _, best => best
  | d :: rest, idx, skip, best =>
    if idx ∈ skip then bestMatchAux cfg tb rest (idx + 1) skip best
    else
      let i := iou tb d.bbox
      if best.1 < i ∧ cfg.matchThresh ≤ i then
        bestMatchAux cfg tb rest (idx + 1) skip (i, some idx)
      else bestMatchAux cfg tb rest (idx + 1) skip best

/-- First association pass of `ByteTracker.update`: non-lost tracks greedily
match unconsumed high-confidence detections.  The accumulator carries the
track dict, `matched_tracks`, `matched_dets` and the output list. -/
def phase1 (cfg : TrkCfg) (high : List Det) :
    List (ℕ × Trk) → List (ℕ × Trk) × List ℕ × List ℕ × List TDet →
    List (ℕ × Trk) × List ℕ × List ℕ × List TDet
  | [], acc => acc
  | (tid, tr) :: rest, acc =>
    if 0 < tr.lostFrames then phase1 cfg high rest acc
    else
      match (bestMatchAux cfg tr.bbox high 0 acc.2.2.1 (0, none)).2 with
      | none => phase1 cfg high rest acc
      | some idx =>
        match high.get? idx with
        | none => phase1 cfg high rest acc
        | some d =>
          phase1 cfg high rest
            (dset acc.1 tid ⟨d.bbox, d.conf, d.cls, tr.age + 1, 0⟩,
             acc.2.1 ++ [tid], acc.2.2.1 ++ [idx],
             acc.2.2.2 ++ [⟨d.bbox, d.conf, d.cls, tid⟩])

/-- Second pass of `ByteTracker.update`: unconsumed high-confidence detections
spawn new tracks with strictly increasing ids. -/
def phase2 : List Det → ℕ → List ℕ → List (ℕ × Trk) × ℕ × List TDet →
    List (ℕ × Trk) × ℕ × List TDet
  | [], _, _, acc => acc
  | d :: rest, idx, matchedD, acc =>
    if idx ∈ matchedD then phase2 rest (idx + 1) matchedD acc
    else
      phase2 rest (idx + 1) matchedD
        (dset acc.1 acc.2.1 ⟨d.bbox, d.conf, d.cls, 1, 0⟩, acc.2.1 + 1,
         acc.2.2 ++ [⟨d.bbox, d.conf, d.cls, acc.2.1⟩])

/-- Third pass of `ByteTracker.update`, iterating over a snapshot of the track
dict: tracks not matched in the first pass are either expired (lost for at
least the TTL), revived by the greedy best low-confidence detection (no
consumed-detection bookkeeping in the source), or aged by one lost frame. -/
def phase3 (cfg : TrkCfg) (low : List Det) (matchedT : List ℕ) :
    List (ℕ × Trk) → List (ℕ × Trk) × List TDet → List (ℕ × Trk) × List TDet
  | [], acc => acc
  | (tid, tr) :: rest, acc =>
    if tid ∈ matchedT then phase3 cfg low matchedT rest acc
    else if cfg.lostTtl ≤ tr.lostFrames then
      phase3 cfg low matchedT rest (derase acc.1 tid, acc.2)
    else
      match (bestMatchAux cfg tr.bbox low 0 [] (0, none)).2 with
      | none =>
        phase3 cfg low matchedT rest
          (dset acc.1 tid { tr with lostFrames := tr.lostFrames + 1 }, acc.2)
      | some idx =>
        match low.get? idx with
        | none => phase3 cfg low matchedT rest acc
        | some d =>
          phase3 cfg low matchedT rest
            (dset acc.1 tid ⟨d.bbox, d.conf, d.cls, tr.age + 1, 0⟩,
             acc.2 ++ [⟨d.bbox, d.conf, d.cls, tid⟩])

/-- `ByteTracker.update`. -/
def trackerUpdate (cfg : TrkCfg) (s : TrkState) (dets : List Det) :
    TrkState × List TDet :=
  let valid := dets.filter (fun d => decide (cfg.minBoxArea ≤ boxArea d.bbox))
  let high := valid.filter (fun d => decide (cfg.trackThresh ≤ d.conf))
  let low := valid.filter (fun d => decide (d.conf < cfg.trackThresh))
  let r1 := phase1 cfg high s.tracks (s.tracks, [], [], [])
  let r2 := phase2 high 0 r1.2.2.1 (r1.1, s.nextId, r1.2.2.2)
  let r3 := phase3 cfg low r1.2.1 r2.1 (r2.1, r2.2.2)
  (⟨r3.1, r2.2.1⟩, r3.2)

/-- Iterate `ByteTracker.update` on empty frames (object absent). -/
def runEmpty (cfg : TrkCfg) : ℕ → TrkState → TrkState
  | 0, s => s
  | n + 1, s => runEmpty cfg n (trackerUpdate cfg s []).1

/-! ## Drift monitor (core/drift.py)

The image-derived metric values (SSIM, edge IoU, brightness variance) are
computed by external libraries (skimage, OpenCV); the monitor's own logic
consumes them as plain numbers, so `driftUpdate` takes the three sample values
of the current frame as inputs. -/

/-- Drift configuration slice. -/
structure DriftCfg where
  enabled : Bool
  ssimThreshold : ℚ
  edgeIouThreshold : ℚ
  brightnessVarMin : ℚ
  reCalibrateOnDrift : Bool
  minMinutesBetweenRecal : ℚ

/-- Drift monitor state.  Histories are most-recent-last with capacity 30. -/
structure DriftState where
  hasReference : Bool
  referenceBrightness : ℚ
  ssimHistory : List ℚ
  edgeIouHistory : List ℚ
  brightnessHistory : List ℚ
  lastRecalTime : Option ℚ
  driftDetected : Bool
deriving DecidableEq

/-- The metrics dict returned by `DriftMonitor.update`. -/
structure DriftResult where
  ssim : ℚ
  edgeIou : ℚ
  brightnessVar : ℚ
  cameraShifted : Bool
  lightingBad : Bool
  driftScore : ℚ
deriving DecidableEq

/-- Append to a `deque(maxlen=30)`: oldest samples evicted. -/
def pushHist (h : List ℚ) (v : ℚ) : List ℚ :=
  let h2 := h ++ [v]
  if h2.length ≤ 30 then h2 else h2.drop (h2.length - 30)

/-- The most recent `n` samples of a history. -/
def lastN (n : ℕ) (l : List ℚ) : List ℚ := l.drop (l.length - n)

/-- Arithmetic mean of a sample list (`np.mean`). -/
def listMean (l : List ℚ) : ℚ := l.sum / l.length

/-- `DriftMonitor.update` on the current frame's metric samples.  With the
monitor disabled or no reference set it returns neutral defaults.  Otherwise it
appends the samples to the rolling histories, computes the flags from the
instantaneous samples, the drift score, and latches `drift_detected`. -/
def driftUpdate (cfg : DriftCfg) (s : DriftState) (ssimVal edgeIouVal brightVar : ℚ) :
    DriftState × DriftResult :=
  if !cfg.enabled || !s.hasReference then
    (s, ⟨1, 1, 0, false, false, 0⟩)
  else
    let cameraShifted :=
      decide (ssimVal < cfg.ssimThreshold) || decide (edgeIouVal < cfg.edgeIouThreshold)
    let lightingBad := decide (brightVar < cfg.brightnessVarMin)
    let brightnessDiff := |brightVar - s.referenceBrightness|
    let driftScore :=
      (1 - ssimVal) * (2 / 5) + (1 - edgeIouVal) * (2 / 5)
        + min (brightnessDiff / 50) 1 * (1 / 5)
    ({ s with
        ssimHistory := pushHist s.ssimHistory ssimVal
        edgeIouHistory := pushHist s.edgeIouHistory edgeIouVal
        brightnessHistory := pushHist s.brightnessHistory brightVar
        driftDetected := cameraShifted || lightingBad },
     ⟨ssimVal, edgeIouVal, brightVar, cameraShifted, lightingBad, driftScore⟩)

/-- The `DriftMonitor.camera_shifted` method: mean of the most recent 10 SSIM
samples below the similarity threshold (edge IoU plays no role here). -/
def cameraShiftedQuery (cfg : DriftCfg) (s : DriftState) : Bool :=
  if !cfg.enabled || s.ssimHistory.isEmpty then false
  else decide (listMean (lastN 10 s.ssimHistory) < cfg.ssimThreshold)

/-- `DriftMonitor.should_recalibrate`, with `time.time()` passed explicitly as
`now` (seconds). -/
def shouldRecalibrate (cfg : DriftCfg) (s : DriftState) (now : ℚ) : Bool :=
  if !cfg.enabled || !cfg.reCalibrateOnDrift then false
  else if !s.driftDetected then false
  else
    match s.lastRecalTime with
    | none => true
    | some t => if (now - t) / 60 < cfg.minMinutesBetweenRecal then false else true

/-- `DriftMonitor.mark_recalibrated`. -/
def markRecalibrated (s : DriftState) (now : ℚ) : DriftState :=
  { s with lastRecalTime := some now, driftDetected := false }

/-! ## Parameter tuner (core/tuner.py) -/

/-- `ParameterTuner.score_run` on the aggregated `events` count and the
`track_id → crossing_count` dict of a run. -/
def scoreRun (optimizeFor : String) (numEvents : ℕ) (tracks : List (ℕ × ℕ)) : ℚ :=
  if optimizeFor = "stable_crossings" then
    let uniqueTracks := tracks.length
    let singles := (tracks.filter (fun q => q.2 == 1)).length
    let doubles := (tracks.filter (fun q => decide (1 < q.2))).length
    if uniqueTracks = 0 then 0
    else
      max 0 ((uniqueTracks : ℚ) * ((singles : ℚ) / (uniqueTracks : ℚ))
        - (doubles : ℚ) * (1 / 2))
  else if optimizeFor = "min_double_counts" then
    let doubles := (tracks.filter (fun q => decide (1 < q.2))).length
    if numEvents = 0 then 0
    else max 0 ((tracks.length : ℚ) / (numEvents : ℚ) - (doubles : ℚ) * 2)
  else 0

/-! ## Step-level description of LineCounter.update on a single-track frame -/

/-- Event decision of the per-track body of `LineCounter.update`, phrased on
the PRE-update track state (its `visible_frames` not yet incremented): an event
direction is produced when a previous centroid exists, the geometric crossing
test fires, the `crossed` latch is clear and the incremented visibility count
reaches the minimum. -/
def stepEmit (cfg : LineCfg) (st : TrackState) (c : Point) : Option Dir :=
  match st.lastCentroid with
  | none => none
  | some prev =>
    match checkCrossing cfg prev c with
    | none => none
    | some d =>
      if st.crossed = false && decide (cfg.minVisibleFrames ≤ st.visibleFrames + 1) then some d
      else none

/-- Track state after the per-track body of `LineCounter.update`, phrased on
the pre-update track state. -/
def stepState (cfg : LineCfg) (st : TrackState) (c : Point) : TrackState :=
  ⟨some c, determineSide cfg c, st.visibleFrames + 1,
   clearAway cfg c (if (stepEmit cfg st c).isSome then true else st.crossed)⟩

theorem clearAway_false (cfg : LineCfg) (c : Point) : clearAway cfg c false = false := by
  unfold clearAway
  split <;> rfl

theorem clearAway_not_moved (cfg : LineCfg) (c : Point) (b : Bool)
    (h : movedAway cfg c = false) : clearAway cfg c b = b := by
  simp [clearAway, h]

theorem stepEmit_of_checkNone (cfg : LineCfg) (st : TrackState) (c p : Point)
    (hl : st.lastCentroid = some p) (h : checkCrossing cfg p c = none) :
    stepEmit cfg st c = none := by
  simp [stepEmit, hl, h]

theorem stepEmit_of_lastNone (cfg : LineCfg) (st : TrackState) (c : Point)
    (hl : st.lastCentroid = none) : stepEmit cfg st c = none := by
  simp [stepEmit, hl]

theorem stepEmit_of_crossed (cfg : LineCfg) (st : TrackState) (c : Point)
    (h : st.crossed = true) : stepEmit cfg st c = none := by
  unfold stepEmit
  cases hl : st.lastCentroid with
  | none => rfl
  | some p =>
    cases hc : checkCrossing cfg p c with
    | none => simp [hc]
    | some dd => simp [hc, h]

theorem stepEmit_fires (cfg : LineCfg) (st : TrackState) (c p : Point) (dd : Dir)
    (hl : st.lastCentroid = some p) (hc : checkCrossing cfg p c = some dd)
    (hcr : st.crossed = false) (hv : cfg.minVisibleFrames ≤ st.visibleFrames + 1) :
    stepEmit cfg st c = some dd := by
  simp [stepEmit, hl, hc, hcr, hv]

theorem stepEmit_low_visibility (cfg : LineCfg) (st : TrackState) (c p : Point) (dd : Dir)
    (hl : st.lastCentroid = some p) (hc : checkCrossing cfg p c = some dd)
    (hv : ¬ cfg.minVisibleFrames ≤ st.visibleFrames + 1) :
    stepEmit cfg st c = none := by
  simp [stepEmit, hl, hc, hv]

/-- `LineCounter.update` on a frame holding a single detection of a single
stored track: the track's state advances by the per-track body, the totals grow
by the emitted direction, and the event list is that one event (if any). -/
theorem counterUpdate_single (cfg : LineCfg) (t : ℕ) (st : TrackState) (d : TDet)
    (ic oc : ℕ) (ts : ℚ) (hd : d.tid = t) :
    counterUpdate cfg ⟨[(t, st)], ic, oc⟩ [d] ts
      = (⟨[(t, stepState cfg st (detCent d))],
          ic + (if stepEmit cfg st (detCent d) = some Dir.inn then 1 else 0),
          oc + (if stepEmit cfg st (detCent d) = some Dir.out then 1 else 0)⟩,
         match stepEmit cfg st (detCent d) with
         | some dd => [⟨ts, dd, t, d.bbox, d.conf⟩]
         | none => []) := by
  subst hd
  obtain ⟨lc, sdf, vf, cr⟩ := st
  cases lc with
  | none =>
    simp [counterUpdate, buildCurrent, dlookup, dset, crossLoop, processTrack, cleanup,
      emitOf, stepEmit, stepState, List.filter]
  | some p =>
    cases hc : checkCrossing cfg p (detCent d) with
    | none =>
      simp [counterUpdate, buildCurrent, dlookup, dset, crossLoop, processTrack, cleanup,
        emitOf, stepEmit, stepState, List.filter, hc]
    | some dd =>
      cases cr <;> cases dd <;>
        by_cases hv : cfg.minVisibleFrames ≤ vf + 1 <;>
        simp [counterUpdate, buildCurrent, dlookup, dset, crossLoop, processTrack, cleanup,
          emitOf, stepEmit, stepState, List.filter, hc, hv]

/-- `LineCounter.update` on a fresh counter state and a single detection: the
defaultdict creates the track's state, whose first frame can emit nothing. -/
theorem counterUpdate_first (cfg : LineCfg) (d : TDet) (ic oc : ℕ) (ts : ℚ) :
    counterUpdate cfg ⟨[], ic, oc⟩ [d] ts
      = (⟨[(d.tid, ⟨some (detCent d), determineSide cfg (detCent d), 1, false⟩)], ic, oc⟩,
         []) := by
  simp [counterUpdate, buildCurrent, dlookup, dset, crossLoop, processTrack, cleanup,
    emitOf, initTrackState, clearAway_false, List.filter]

/-- Unfolding lemma for `runSingle` on a nonempty frame list. -/
theorem runSingle_cons (cfg : LineCfg) (ts : ℚ) (s : CState) (d : TDet) (rest : List TDet) :
    runSingle cfg ts s (d :: rest)
      = ((runSingle cfg ts (counterUpdate cfg s [d] ts).1 rest).1,
         (counterUpdate cfg s [d] ts).2
           ++ (runSingle cfg ts (counterUpdate cfg s [d] ts).1 rest).2) := rfl

/-- No geometric crossing is detected along the centroid chain that starts at
`p` and continues through the given detections. -/
def chainNone (cfg : LineCfg) : Point → List TDet → Bool
  | _, [] => true
  | p, d :: rest =>
    decide (checkCrossing cfg p (detCent d) = none) && chainNone cfg (detCent d) rest

/-- Final centroid of the chain started at `p`. -/
def lastC : Point → List TDet → Point
  | p, [] => p
  | _, d :: rest => lastC (detCent d) rest

/-- Running a crossing-free stretch of single-detection frames changes neither
the totals nor the event list; the track's visibility keeps growing, and a
clear `crossed` latch stays clear. -/
theorem run_chain_none (cfg : LineCfg) (ts : ℚ) (t : ℕ) :
    ∀ (ds : List TDet) (p : Point) (sd : Option Side) (v : ℕ) (b : Bool) (ic oc : ℕ),
      (∀ d ∈ ds, d.tid = t) → chainNone cfg p ds = true →
      ∃ sd2 b2,
        runSingle cfg ts ⟨[(t, ⟨some p, sd, v, b⟩)], ic, oc⟩ ds
          = (⟨[(t, ⟨some (lastC p ds), sd2, v + ds.length, b2⟩)], ic, oc⟩, [])
        ∧ (b = false → b2 = false) := by
  intro ds
  induction ds with
  | nil =>
    intro p sd v b ic oc _ _
    exact ⟨sd, b, by simp [runSingle, lastC], fun h => h⟩
  | cons d rest ih =>
    intro p sd v b ic oc hall hchain
    have hc : checkCrossing cfg p (detCent d) = none := by
      have := hchain
      simp [chainNone] at this
      exact this.1
    have hrest : chainNone cfg (detCent d) rest = true := by
      have := hchain
      simp [chainNone] at this
      exact this.2
    have hd : d.tid = t := hall d (by simp)
    have hemit : stepEmit cfg ⟨some p, sd, v, b⟩ (detCent d) = none :=
      stepEmit_of_checkNone cfg _ _ p rfl hc
    have hstep := counterUpdate_single cfg t ⟨some p, sd, v, b⟩ d ic oc ts hd
    rw [hemit] at hstep
    simp only [stepState, hemit, Option.isSome_none, Bool.false_eq_true, if_false,
      if_neg (by simp : ¬ (none : Option Dir) = some Dir.inn),
      if_neg (by simp : ¬ (none : Option Dir) = some Dir.out),
      Nat.add_zero] at hstep
    obtain ⟨sd2, b2, h2, himp⟩ :=
      ih (detCent d) (determineSide cfg (detCent d)) (v + 1)
        (clearAway cfg (detCent d) b) ic oc (fun x hx => hall x (by simp [hx])) hrest
    refine ⟨sd2, b2, ?_, fun hb => himp (by rw [hb, clearAway_false])⟩
    rw [runSingle_cons, hstep]
    simp only [h2, List.nil_append, List.length_cons, lastC]
    have hv : v + 1 + rest.length = v + (rest.length + 1) := by omega
    rw [hv]

/-- While the `crossed` latch is set, frames whose centroid does not move away
from the line (distance at most twice the hysteresis width) emit nothing,
change no totals, and leave the latch set. -/
theorem run_crossed_near (cfg : LineCfg) (ts : ℚ) (t : ℕ) :
    ∀ (ds : List TDet) (p : Point) (sd : Option Side) (v : ℕ) (ic oc : ℕ),
      (∀ d ∈ ds, d.tid = t ∧ movedAway cfg (detCent d) = false) →
      ∃ sd2,
        runSingle cfg ts ⟨[(t, ⟨some p, sd, v, true⟩)], ic, oc⟩ ds
          = (⟨[(t, ⟨some (lastC p ds), sd2, v + ds.length, true⟩)], ic, oc⟩, []) := by
  intro ds
  induction ds with
  | nil =>
    intro p sd v ic oc _
    exact ⟨sd, by simp [runSingle, lastC]⟩
  | cons d rest ih =>
    intro p sd v ic oc hall
    have hd : d.tid = t := (hall d (by simp)).1
    have hmv : movedAway cfg (detCent d) = false := (hall d (by simp)).2
    have hemit : stepEmit cfg ⟨some p, sd, v, true⟩ (detCent d) = none :=
      stepEmit_of_crossed cfg _ _ rfl
    have hstep := counterUpdate_single cfg t ⟨some p, sd, v, true⟩ d ic oc ts hd
    rw [hemit] at hstep
    simp only [stepState, hemit, Option.isSome_none, Bool.false_eq_true, if_false,
      if_neg (by simp : ¬ (none : Option Dir) = some Dir.inn),
      if_neg (by simp : ¬ (none : Option Dir) = some Dir.out),
      Nat.add_zero, clearAway_not_moved cfg (detCent d) true hmv] at hstep
    obtain ⟨sd2, h2⟩ :=
      ih (detCent d) (determineSide cfg (detCent d)) (v + 1) ic oc
        (fun x hx => hall x (by simp [hx]))
    refine ⟨sd2, ?_⟩
    rw [runSingle_cons, hstep]
    simp only [h2, List.nil_append, List.length_cons, lastC]
    have hv : v + 1 + rest.length = v + (rest.length + 1) := by omega
    rw [hv]

/-! ## Frames whose centroids are all ambiguous never emit -/

theorem dlookup_dset {α : Type} :
    ∀ (l : List (ℕ × α)) (k : ℕ) (v : α) (j : ℕ),
      dlookup (dset l k v) j = if j = k then some v else dlookup l j := by
  intro l
  induction l with
  | nil =>
    intro k v j
    by_cases h : j = k
    · subst h
      simp [dset, dlookup]
    · have h2 : ¬ k = j := fun hh => h hh.symm
      simp [dset, dlookup, h, h2]
  | cons q rest ih =>
    intro k v j
    by_cases h1 : q.1 = k
    · by_cases h2 : j = k
      · subst h2
        simp [dset, dlookup, h1]
      · have h3 : ¬ k = j := fun hh => h2 hh.symm
        have h4 : ¬ q.1 = j := fun hh => h2 (h1.symm.trans hh).symm
        simp [dset, dlookup, h1, h2, h3, h4]
    · by_cases h2 : q.1 = j
      · have h3 : ¬ j = k := fun hh => h1 (h2.trans hh)
        simp [dset, dlookup, h1, h2, h3]
      · simp [dset, dlookup, h1, h2, ih]

theorem checkCrossing_none_of_ambiguous (cfg : LineCfg) (p c : Point)
    (h : determineSide cfg c = none) : checkCrossing cfg p c = none := by
  unfold checkCrossing
  cases hs : segIntersect p c cfg.lineStart cfg.lineEnd with
  | none => rfl
  | some q =>
    cases hps : determineSide cfg p with
    | none => simp [h, hps]
    | some ps => simp [h, hps]

theorem emitOf_of_ambiguous (cfg : LineCfg) (st : TrackState) (c : Point)
    (h : determineSide cfg c = none) : emitOf cfg st c = none := by
  cases hl : st.lastCentroid with
  | none => simp [emitOf, hl]
  | some p => simp [emitOf, hl, checkCrossing_none_of_ambiguous cfg p c h]

/-- If every track visible this frame sits in the hysteresis band, one step of
the crossing loop changes only the track-state dict: totals and events stay. -/
theorem processTrack_snd (cfg : LineCfg) (current : List (ℕ × TrackInfo)) (ts : ℚ)
    (hcur : ∀ k info, dlookup current k = some info → determineSide cfg info.cent = none)
    (acc : List (ℕ × TrackState) × ℕ × ℕ × List CrossEvent) (t : ℕ) :
    (processTrack cfg current ts acc t).2 = acc.2 := by
  cases h1 : dlookup acc.1 t with
  | none => simp [processTrack, h1]
  | some st =>
    cases h2 : dlookup current t with
    | none => simp [processTrack, h1, h2]
    | some info =>
      have hemit : emitOf cfg st info.cent = none :=
        emitOf_of_ambiguous cfg st _ (hcur t info h2)
      simp [processTrack, h1, h2, hemit]

theorem crossLoop_snd (cfg : LineCfg) (current : List (ℕ × TrackInfo)) (ts : ℚ)
    (hcur : ∀ k info, dlookup current k = some info → determineSide cfg info.cent = none) :
    ∀ (keys : List ℕ) (acc : List (ℕ × TrackState) × ℕ × ℕ × List CrossEvent),
      (crossLoop cfg current ts keys acc).2 = acc.2 := by
  intro keys
  induction keys with
  | nil => intro acc; rfl
  | cons t rest ih =>
    intro acc
    rw [crossLoop, ih (processTrack cfg current ts acc t),
      processTrack_snd cfg current ts hcur acc t]

/-- Every entry of the `current_tracks` dict built from an all-ambiguous frame
has an ambiguous centroid. -/
theorem buildCurrent_ambient (cfg : LineCfg) :
    ∀ (dets : List TDet) (cur : List (ℕ × TrackInfo)) (sts : List (ℕ × TrackState)),
      (∀ d ∈ dets, determineSide cfg (detCent d) = none) →
      (∀ k info, dlookup cur k = some info → determineSide cfg info.cent = none) →
      ∀ k info, dlookup (buildCurrent dets cur sts).1 k = some info →
        determineSide cfg info.cent = none := by
  intro dets
  induction dets with
  | nil => intro cur sts _ hcur k info h; exact hcur k info h
  | cons d rest ih =>
    intro cur sts hdets hcur k info h
    refine ih _ _ (fun x hx => hdets x (by simp [hx])) ?_ k info h
    intro k2 info2 hk2
    rw [dlookup_dset] at hk2
    by_cases he : k2 = d.tid
    · rw [if_pos he] at hk2
      obtain rfl : info2 = ⟨detCent d, d.bbox, d.conf⟩ := by
        injection hk2 with hh
        exact hh.symm
      exact hdets d (by simp)
    · rw [if_neg he] at hk2
      exact hcur k2 info2 hk2

/-- A frame all of whose detections have centroids inside the hysteresis band
emits nothing and leaves both totals unchanged, from ANY counter state. -/
theorem counterUpdate_ambient (cfg : LineCfg) (s : CState) (dets : List TDet) (ts : ℚ)
    (h : ∀ d ∈ dets, determineSide cfg (detCent d) = none) :
    (counterUpdate cfg s dets ts).2 = []
    ∧ (counterUpdate cfg s dets ts).1.inCount = s.inCount
    ∧ (counterUpdate cfg s dets ts).1.outCount = s.outCount := by
  have hcur := buildCurrent_ambient cfg dets [] s.states h
    (by intro k info hk; simp [dlookup] at hk)
  have h2 := crossLoop_snd cfg (buildCurrent dets [] s.states).1 ts hcur
    ((buildCurrent dets [] s.states).2.map Prod.fst)
    ((buildCurrent dets [] s.states).2, s.inCount, s.outCount, [])
  simp only [counterUpdate]
  rw [h2]
  exact ⟨rfl, rfl, rfl⟩

/-- C3's trace consequence generalized: across any sequence of
single-detection frames whose centroids all stay in the hysteresis band, no
event is ever emitted and the totals never move. -/
theorem runSingle_ambient (cfg : LineCfg) (ts : ℚ) :
    ∀ (ds : List TDet) (s : CState),
      (∀ d ∈ ds, determineSide cfg (detCent d) = none) →
      (runSingle cfg ts s ds).2 = []
      ∧ (runSingle cfg ts s ds).1.inCount = s.inCount
      ∧ (runSingle cfg ts s ds).1.outCount = s.outCount := by
  intro ds
  induction ds with
  | nil => intro s _; exact ⟨rfl, rfl, rfl⟩
  | cons d rest ih =>
    intro s hall
    obtain ⟨he, hi, ho⟩ := counterUpdate_ambient cfg s [d] ts
      (by intro x hx; simp at hx; rw [hx]; exact hall d (by simp))
    obtain ⟨he2, hi2, ho2⟩ := ih (counterUpdate cfg s [d] ts).1
      (fun x hx => hall x (by simp [hx]))
    rw [runSingle_cons]
    exact ⟨by simp [he, he2], by simp [hi2, hi], by simp [ho2, ho]⟩

/-! ## Geometric facts about the moved-away test -/

/-- The inline distance numerator of `LineCounter.update` equals the cross
product of `_determine_side`. -/
theorem distNum_eq_sideCross (cfg : LineCfg) (p : Point) :
    distNum cfg p = sideCross cfg p := by
  unfold distNum sideCross
  ring

/-- With a nonnegative hysteresis width, a centroid that passes the moved-away
test is never ambiguous, so the source's `state["side"] is not None` guard is
implied and the `crossed` latch is indeed cleared. -/
theorem side_isSome_of_movedAway (cfg : LineCfg) (c : Point)
    (h0 : 0 ≤ cfg.hysteresisPx) (hm : movedAway cfg c = true) :
    (determineSide cfg c).isSome = true := by
  have hlen : 0 ≤ lineLen2 cfg := by
    unfold lineLen2
    positivity
  have hq : 4 * cfg.hysteresisPx ^ 2 * lineLen2 cfg < distNum cfg c ^ 2 := by
    unfold movedAway at hm
    rcases Bool.or_eq_true_iff.mp hm with h | h
    · exact absurd (of_decide_eq_true h) (not_lt.mpr h0)
    · exact of_decide_eq_true h
  rw [distNum_eq_sideCross] at hq
  have hns : ¬ (sideCross cfg c ^ 2 < cfg.hysteresisPx ^ 2 * lineLen2 cfg) := by
    have h1 : cfg.hysteresisPx ^ 2 * lineLen2 cfg ≤ 4 * cfg.hysteresisPx ^ 2 * lineLen2 cfg := by
      nlinarith [sq_nonneg cfg.hysteresisPx]
    linarith
  simp [determineSide, hns]

/-- Whenever the moved-away test fires (nonnegative hysteresis), the `crossed`
latch is cleared. -/
theorem clearAway_of_movedAway (cfg : LineCfg) (c : Point) (b : Bool)
    (h0 : 0 ≤ cfg.hysteresisPx) (hm : movedAway cfg c = true) :
    clearAway cfg c b = false := by
  simp [clearAway, hm, side_isSome_of_movedAway cfg c h0 hm]

/-! ## Claims C1 to C4 (line counter) -/

/-- Appending frame lists composes `runSingle` runs. -/
theorem runSingle_append (cfg : LineCfg) (ts : ℚ) :
    ∀ (xs ys : List TDet) (s : CState),
      runSingle cfg ts s (xs ++ ys)
        = ((runSingle cfg ts (runSingle cfg ts s xs).1 ys).1,
           (runSingle cfg ts s xs).2 ++ (runSingle cfg ts (runSingle cfg ts s xs).1 ys).2) := by
  intro xs
  induction xs with
  | nil => intro ys s; simp [runSingle]
  | cons d rest ih =>
    intro ys s
    rw [List.cons_append, runSingle_cons, runSingle_cons, ih]
    simp [runSingle_cons, List.append_assoc]

/-- C1: a track that appears, approaches, crosses the line exactly once with
enough visible frames, and afterwards triggers no further geometric crossing,
makes `LineCounter.update` emit exactly one event — for the crossing frame,
with the direction determined by the side transition — and the matching total
grows by exactly one while the other total stays at zero. -/
theorem claim_C1 (cfg : LineCfg) (t : ℕ) (ts : ℚ) (d0 dc : TDet) (pre post : List TDet)
    (dd : Dir)
    (hall : ∀ d ∈ d0 :: pre ++ dc :: post, d.tid = t)
    (hpre : chainNone cfg (detCent d0) pre = true)
    (hcross : checkCrossing cfg (lastC (detCent d0) pre) (detCent dc) = some dd)
    (hpost : chainNone cfg (detCent dc) post = true)
    (hvis : cfg.minVisibleFrames ≤ pre.length + 2) :
    (runSingle cfg ts initCState (d0 :: pre ++ dc :: post)).2 = [⟨ts, dd, t, dc.bbox, dc.conf⟩]
    ∧ (runSingle cfg ts initCState (d0 :: pre ++ dc :: post)).1.inCount
        = (if dd = Dir.inn then 1 else 0)
    ∧ (runSingle cfg ts initCState (d0 :: pre ++ dc :: post)).1.outCount
        = (if dd = Dir.out then 1 else 0) := by
  have hd0 : d0.tid = t := hall d0 (by simp)
  have hdc : dc.tid = t := hall dc (by simp)
  -- the approach: no crossing, latch stays clear, visibility grows
  obtain ⟨sd2, b2, hrunpre, himp⟩ :=
    run_chain_none cfg ts t pre (detCent d0) (determineSide cfg (detCent d0)) 1 false 0 0
      (fun x hx => hall x (by simp [hx])) hpre
  obtain rfl : b2 = false := himp rfl
  -- first frame plus approach
  have hA : runSingle cfg ts initCState (d0 :: pre)
      = (⟨[(t, ⟨some (lastC (detCent d0) pre), sd2, 1 + pre.length, false⟩)], 0, 0⟩, []) := by
    simp only [initCState]
    rw [runSingle_cons, counterUpdate_first, hd0, hrunpre]
    simp
  -- the crossing frame
  have hemit : stepEmit cfg ⟨some (lastC (detCent d0) pre), sd2, 1 + pre.length, false⟩
      (detCent dc) = some dd :=
    stepEmit_fires cfg _ _ _ dd rfl hcross rfl
      (by show cfg.minVisibleFrames ≤ 1 + pre.length + 1; omega)
  have hstep := counterUpdate_single cfg t
    ⟨some (lastC (detCent d0) pre), sd2, 1 + pre.length, false⟩ dc 0 0 ts hdc
  rw [hemit] at hstep
  have hstate : stepState cfg ⟨some (lastC (detCent d0) pre), sd2, 1 + pre.length, false⟩
      (detCent dc)
      = ⟨some (detCent dc), determineSide cfg (detCent dc), 1 + pre.length + 1,
         clearAway cfg (detCent dc) true⟩ := by
    simp [stepState, hemit]
  rw [hstate] at hstep
  -- the aftermath: no further crossing, totals frozen
  obtain ⟨sd3, b3, hrunpost, _⟩ :=
    run_chain_none cfg ts t post (detCent dc) (determineSide cfg (detCent dc))
      (1 + pre.length + 1) (clearAway cfg (detCent dc) true)
      (0 + (if some dd = some Dir.inn then 1 else 0))
      (0 + (if some dd = some Dir.out then 1 else 0))
      (fun x hx => hall x (by simp [hx])) hpost
  have hB : runSingle cfg ts
      ⟨[(t, ⟨some (lastC (detCent d0) pre), sd2, 1 + pre.length, false⟩)], 0, 0⟩ (dc :: post)
      = (⟨[(t, ⟨some (lastC (detCent dc) post), sd3, 1 + pre.length + 1 + post.length, b3⟩)],
          (if dd = Dir.inn then 1 else 0), (if dd = Dir.out then 1 else 0)⟩,
         [⟨ts, dd, t, dc.bbox, dc.conf⟩]) := by
    rw [runSingle_cons, hstep, hrunpost]
    simp
  rw [runSingle_append, hA, hB]
  simp

/-- C4: a frame in which the geometric crossing condition holds but the
track's visibility count (after this frame's increment) is still below
`min_visible_frames` emits no event and leaves both totals unchanged. -/
theorem claim_C4 (cfg : LineCfg) (t : ℕ) (st : TrackState) (d : TDet) (p : Point) (dd : Dir)
    (ic oc : ℕ) (ts : ℚ) (hd : d.tid = t) (hl : st.lastCentroid = some p)
    (hc : checkCrossing cfg p (detCent d) = some dd)
    (hv : st.visibleFrames + 1 < cfg.minVisibleFrames) :
    (counterUpdate cfg ⟨[(t, st)], ic, oc⟩ [d] ts).2 = []
    ∧ (counterUpdate cfg ⟨[(t, st)], ic, oc⟩ [d] ts).1.inCount = ic
    ∧ (counterUpdate cfg ⟨[(t, st)], ic, oc⟩ [d] ts).1.outCount = oc := by
  have hemit : stepEmit cfg st (detCent d) = none :=
    stepEmit_low_visibility cfg st (detCent d) p dd hl hc (by omega)
  rw [counterUpdate_single cfg t st d ic oc ts hd, hemit]
  exact ⟨rfl, by simp, by simp⟩

/-- C2: the debounce latch.  First conjunct: once `crossed` is set, any run of
frames whose centroids do not move away from the line (perpendicular distance
at most twice the hysteresis width, i.e. the source's squared moved-away test
is false) emits nothing, leaves the totals unchanged and keeps the latch set.
Second conjunct: a frame whose centroid does move away (distance strictly
beyond twice the hysteresis width) clears the latch.  Third conjunct: with the
latch clear, a genuine crossing with enough visibility is counted again. -/
theorem claim_C2 (cfg : LineCfg) (t : ℕ) (ts : ℚ) (h0 : 0 ≤ cfg.hysteresisPx) :
    (∀ (ds : List TDet) (p : Point) (sd : Option Side) (v ic oc : ℕ),
      (∀ d ∈ ds, d.tid = t ∧ movedAway cfg (detCent d) = false) →
      ∃ sd2, runSingle cfg ts ⟨[(t, ⟨some p, sd, v, true⟩)], ic, oc⟩ ds
        = (⟨[(t, ⟨some (lastC p ds), sd2, v + ds.length, true⟩)], ic, oc⟩, []))
    ∧ (∀ (st : TrackState) (d : TDet) (ic oc : ℕ), d.tid = t →
        movedAway cfg (detCent d) = true →
        (counterUpdate cfg ⟨[(t, st)], ic, oc⟩ [d] ts).1.states
          = [(t, { stepState cfg st (detCent d) with crossed := false })])
    ∧ (∀ (st : TrackState) (d : TDet) (p : Point) (dd : Dir) (ic oc : ℕ), d.tid = t →
        st.lastCentroid = some p → checkCrossing cfg p (detCent d) = some dd →
        st.crossed = false → cfg.minVisibleFrames ≤ st.visibleFrames + 1 →
        (counterUpdate cfg ⟨[(t, st)], ic, oc⟩ [d] ts).2
          = [⟨ts, dd, t, d.bbox, d.conf⟩]) := by
  refine ⟨?_, ?_, ?_⟩
  · intro ds p sd v ic oc hall
    exact run_crossed_near cfg ts t ds p sd v ic oc hall
  · intro st d ic oc hd hm
    rw [counterUpdate_single cfg t st d ic oc ts hd]
    simp [stepState, clearAway_of_movedAway cfg (detCent d) _ h0 hm]
  · intro st d p dd ic oc hd hl hcc hcr hv
    have hemit := stepEmit_fires cfg st (detCent d) p dd hl hcc hcr hv
    rw [counterUpdate_single cfg t st d ic oc ts hd, hemit]

/-- C3: side determination.  With a nonnegative hysteresis width: a point is
"ambiguous" exactly when the source's hysteresis test fires (`cross² <
hysteresis_px² · |E−S|²`, the squared form of `|cross| < hysteresis_px·|E−S|`);
a named side is exactly the sign of the cross product mapped per the
configured direction (inverted for the reverse setting); and a track whose
centroids all remain ambiguous never produces an event nor moves a total,
across any sequence of updates from any counter state. -/
theorem claim_C3 (cfg : LineCfg) (h0 : 0 ≤ cfg.hysteresisPx) :
    (∀ p : Point,
      (determineSide cfg p = none ↔ sideCross cfg p ^ 2 < cfg.hysteresisPx ^ 2 * lineLen2 cfg)
      ∧ (∀ sd : Side, determineSide cfg p = some sd →
          sd = (match cfg.direction with
            | LineDir.barToCounter => if 0 < sideCross cfg p then Side.counter else Side.bar
            | LineDir.counterToBar => if 0 < sideCross cfg p then Side.bar else Side.counter)))
    ∧ ∀ (ds : List TDet) (s : CState) (ts : ℚ),
        (∀ d ∈ ds, determineSide cfg (detCent d) = none) →
        (runSingle cfg ts s ds).2 = []
        ∧ (runSingle cfg ts s ds).1.inCount = s.inCount
        ∧ (runSingle cfg ts s ds).1.outCount = s.outCount := by
  constructor
  · intro p
    constructor
    · unfold determineSide
      by_cases hc : sideCross cfg p ^ 2 < cfg.hysteresisPx ^ 2 * lineLen2 cfg
      · simp [hc, h0]
      · simp [hc]
    · intro sd hsd
      unfold determineSide at hsd
      by_cases hc : 0 ≤ cfg.hysteresisPx ∧ sideCross cfg p ^ 2 < cfg.hysteresisPx ^ 2 * lineLen2 cfg
      · simp [hc] at hsd
      · simp [hc] at hsd
        exact hsd.symm
  · intro ds s ts hall
    exact runSingle_ambient cfg ts ds s hall

/-! ## Concrete counter scenario used by the witnesses -/

/-- Horizontal counting line from (100, 100) to (200, 100), direction
`bar_to_counter`, hysteresis 6 px, minimum 2 visible frames. -/
def cfgLine : LineCfg := ⟨(100, 100), (200, 100), LineDir.barToCounter, 6, 2⟩

/-- Detection of track 1 below the line (centroid (150, 125)). -/
def detBelow : TDet := ⟨⟨145, 120, 155, 130⟩, 4 / 5, 41, 1⟩

/-- Detection of track 1 above the line (centroid (150, 75)). -/
def detAbove : TDet := ⟨⟨145, 70, 155, 80⟩, 4 / 5, 41, 1⟩

/-- Detection of track 1 inside the hysteresis band (centroid (150, 95)). -/
def detNear : TDet := ⟨⟨145, 90, 155, 100⟩, 4 / 5, 41, 1⟩

theorem detCent_below : detCent detBelow = (150, 125) := by
  simp only [detCent, centroid, detBelow]
  norm_num

theorem detCent_above : detCent detAbove = (150, 75) := by
  simp only [detCent, centroid, detAbove]
  norm_num

theorem detCent_near : detCent detNear = (150, 95) := by
  simp only [detCent, centroid, detNear]
  norm_num

theorem seg_below_above :
    segIntersect (150, 125) (150, 75) cfgLine.lineStart cfgLine.lineEnd = some (150, 100) := by
  rw [show cfgLine.lineStart = (100, 100) from rfl, show cfgLine.lineEnd = (200, 100) from rfl]
  simp only [segIntersect]
  norm_num

theorem seg_above_above :
    segIntersect (150, 75) (150, 75) cfgLine.lineStart cfgLine.lineEnd = none := by
  rw [show cfgLine.lineStart = (100, 100) from rfl, show cfgLine.lineEnd = (200, 100) from rfl]
  simp only [segIntersect]
  norm_num

theorem side_below : determineSide cfgLine (150, 125) = some Side.bar := by
  simp only [determineSide, sideCross, lineLen2, cfgLine]
  norm_num

theorem side_above : determineSide cfgLine (150, 75) = some Side.counter := by
  simp only [determineSide, sideCross, lineLen2, cfgLine]
  norm_num

theorem side_near : determineSide cfgLine (150, 95) = none := by
  simp only [determineSide, sideCross, lineLen2, cfgLine]
  norm_num

theorem cross_below_above : checkCrossing cfgLine (150, 125) (150, 75) = some Dir.inn := by
  unfold checkCrossing
  simp only [seg_below_above, side_below, side_above]
  rfl

theorem cross_above_above : checkCrossing cfgLine (150, 75) (150, 75) = none := by
  unfold checkCrossing
  simp only [seg_above_above]

theorem moved_near : movedAway cfgLine (150, 95) = false := by
  simp only [movedAway, distNum, lineLen2, cfgLine]
  norm_num

/-- C1 witness: the track appears below the line, crosses to the counter side
on its second frame, stays put afterwards; exactly one "in" event is emitted
and the totals end at in = 1, out = 0. -/
theorem crossHyp_below_above :
    checkCrossing cfgLine (lastC (detCent detBelow) []) (detCent detAbove) = some Dir.inn := by
  rw [show lastC (detCent detBelow) [] = detCent detBelow from rfl,
    detCent_below, detCent_above]
  exact cross_below_above

theorem chainHyp_above : chainNone cfgLine (detCent detAbove) [detAbove] = true := by
  simp only [chainNone, detCent_above, cross_above_above]
  rfl

theorem claim_C1_witness :
    (checkCrossing cfgLine (lastC (detCent detBelow) []) (detCent detAbove) = some Dir.inn
      ∧ chainNone cfgLine (detCent detAbove) [detAbove] = true
      ∧ cfgLine.minVisibleFrames ≤ ([] : List TDet).length + 2)
    ∧ ((runSingle cfgLine 0 initCState (detBelow :: [] ++ detAbove :: [detAbove])).2
          = [⟨0, Dir.inn, 1, detAbove.bbox, detAbove.conf⟩]
      ∧ (runSingle cfgLine 0 initCState (detBelow :: [] ++ detAbove :: [detAbove])).1.inCount
          = (if Dir.inn = Dir.inn then 1 else 0)
      ∧ (runSingle cfgLine 0 initCState (detBelow :: [] ++ detAbove :: [detAbove])).1.outCount
          = (if Dir.inn = Dir.out then 1 else 0)) :=
  ⟨⟨crossHyp_below_above, chainHyp_above, by norm_num [cfgLine]⟩,
   claim_C1 cfgLine 1 0 detBelow detAbove [] [detAbove] Dir.inn
     (by intro d hd; fin_cases hd <;> rfl)
     rfl crossHyp_below_above chainHyp_above (by norm_num [cfgLine])⟩

/-- C2 witness: with the latch set, a frame hovering inside the band (distance
5 ≤ 2·6 to the line) emits nothing, keeps the totals and keeps the latch. -/
theorem claim_C2_witness :
    (0 ≤ cfgLine.hysteresisPx)
    ∧ ∃ sd2, runSingle cfgLine 0 ⟨[(1, ⟨some (150, 75), none, 3, true⟩)], 1, 0⟩ [detNear]
        = (⟨[(1, ⟨some (lastC (150, 75) [detNear]), sd2, 3 + [detNear].length, true⟩)], 1, 0⟩,
           []) :=
  ⟨by norm_num [cfgLine],
   (claim_C2 cfgLine 1 0 (by norm_num [cfgLine])).1 [detNear] (150, 75) none 3 1 0
     (by
       intro d hd
       fin_cases hd
       exact ⟨rfl, by rw [detCent_near]; exact moved_near⟩)⟩

/-- C3 witness: with hysteresis 6, a track hovering at distance 5 from the
line stays ambiguous and two such frames produce no event and no total. -/
theorem claim_C3_witness :
    (0 ≤ cfgLine.hysteresisPx)
    ∧ ((runSingle cfgLine 0 initCState [detNear, detNear]).2 = []
      ∧ (runSingle cfgLine 0 initCState [detNear, detNear]).1.inCount = initCState.inCount
      ∧ (runSingle cfgLine 0 initCState [detNear, detNear]).1.outCount
          = initCState.outCount) :=
  ⟨by norm_num [cfgLine],
   (claim_C3 cfgLine (by norm_num [cfgLine])).2 [detNear, detNear] initCState 0
     (by
       intro d hd
       fin_cases hd <;> (rw [detCent_near]; exact side_near))⟩

/-- C4 witness: with `min_visible_frames = 2`, a track visible for only one
frame that crosses geometrically is suppressed: no event, totals untouched. -/
theorem claim_C4_witness :
    (checkCrossing cfgLine (150, 125) (detCent detAbove) = some Dir.inn
      ∧ 0 + 1 < cfgLine.minVisibleFrames)
    ∧ ((counterUpdate cfgLine
          ⟨[(1, ⟨some (150, 125), none, 0, false⟩)], 0, 0⟩ [detAbove] 0).2 = []
      ∧ (counterUpdate cfgLine
          ⟨[(1, ⟨some (150, 125), none, 0, false⟩)], 0, 0⟩ [detAbove] 0).1.inCount = 0
      ∧ (counterUpdate cfgLine
          ⟨[(1, ⟨some (150, 125), none, 0, false⟩)], 0, 0⟩ [detAbove] 0).1.outCount = 0) :=
  ⟨⟨by rw [detCent_above]; exact cross_below_above, by norm_num [cfgLine]⟩,
   claim_C4 cfgLine 1 ⟨some (150, 125), none, 0, false⟩ detAbove (150, 125) Dir.inn 0 0 0
     rfl rfl
     (by rw [detCent_above]; exact cross_below_above)
     (by norm_num [cfgLine])⟩

/-! ## Claim C5: per-track state lives exactly as long as the track is present -/

theorem dlookup_mem {α : Type} :
    ∀ (l : List (ℕ × α)) (k : ℕ) (v : α), dlookup l k = some v → (k, v) ∈ l := by
  intro l
  induction l with
  | nil => intro k v h; simp [dlookup] at h
  | cons q rest ih =>
    intro k v h
    by_cases h1 : q.1 = k
    · simp [dlookup, h1] at h
      subst h1
      rw [← h]
      simp
    · simp [dlookup, h1] at h
      exact List.mem_cons_of_mem q (ih k v h)

theorem dlookup_isSome_of_mem {α : Type} :
    ∀ (l : List (ℕ × α)) (k : ℕ), k ∈ l.map Prod.fst → ∃ v, dlookup l k = some v := by
  intro l
  induction l with
  | nil => intro k h; simp at h
  | cons q rest ih =>
    intro k h
    by_cases h1 : q.1 = k
    · exact ⟨q.2, by simp [dlookup, h1]⟩
    · have h2 : k ∈ rest.map Prod.fst := by
        rcases List.mem_cons.mp h with h3 | h3
        · exact absurd h3.symm h1
        · exact h3
      obtain ⟨v, hv⟩ := ih k h2
      exact ⟨v, by simp [dlookup, h1, hv]⟩

theorem dlookup_eq_none {α : Type} :
    ∀ (l : List (ℕ × α)) (k : ℕ), k ∉ l.map Prod.fst → dlookup l k = none := by
  intro l
  induction l with
  | nil => intro k _; rfl
  | cons q rest ih =>
    intro k h
    have h1 : ¬ q.1 = k := fun hh => h (by simp [hh])
    simp [dlookup, h1]
    exact ih k (fun hh => h (by simp [hh]))

theorem mem_dlookup_of_nodup {α : Type} :
    ∀ (l : List (ℕ × α)) (k : ℕ) (v : α), (l.map Prod.fst).Nodup → (k, v) ∈ l →
      dlookup l k = some v := by
  intro l
  induction l with
  | nil => intro k v _ h; simp at h
  | cons q rest ih =>
    intro k v hnd hm
    rcases List.mem_cons.mp hm with h1 | h1
    · rw [← h1]
      simp [dlookup]
    · have hk : k ∈ rest.map Prod.fst := List.mem_map.mpr ⟨(k, v), h1, rfl⟩
      have h2 : ¬ q.1 = k := by
        intro hh
        have := (List.nodup_cons.mp hnd).1
        exact this (hh ▸ hk)
      simp [dlookup, h2]
      exact ih k v (List.nodup_cons.mp hnd).2 h1

theorem mem_map_fst_dset {α : Type} :
    ∀ (l : List (ℕ × α)) (k : ℕ) (v : α) (a : ℕ),
      a ∈ (dset l k v).map Prod.fst ↔ a ∈ l.map Prod.fst ∨ a = k := by
  intro l
  induction l with
  | nil => intro k v a; simp [dset]
  | cons q rest ih =>
    intro k v a
    by_cases h1 : q.1 = k
    · subst h1
      simp [dset]
      tauto
    · simp [dset, h1, ih]
      tauto

theorem map_fst_dset_of_mem {α : Type} :
    ∀ (l : List (ℕ × α)) (k : ℕ) (v : α), k ∈ l.map Prod.fst →
      (dset l k v).map Prod.fst = l.map Prod.fst := by
  intro l
  induction l with
  | nil => intro k v h; simp at h
  | cons q rest ih =>
    intro k v h
    by_cases h1 : q.1 = k
    · simp [dset, h1]
    · have h2 : k ∈ rest.map Prod.fst := by
        rcases List.mem_cons.mp h with h3 | h3
        · exact absurd h3.symm h1
        · exact h3
      simp [dset, h1, ih k v h2]

theorem map_fst_dset_of_not_mem {α : Type} :
    ∀ (l : List (ℕ × α)) (k : ℕ) (v : α), k ∉ l.map Prod.fst →
      (dset l k v).map Prod.fst = l.map Prod.fst ++ [k] := by
  intro l
  induction l with
  | nil => intro k v _; simp [dset]
  | cons q rest ih =>
    intro k v h
    have h1 : ¬ q.1 = k := fun hh => h (by simp [hh])
    simp [dset, h1]
    exact ih k v (fun hh => h (by simp [hh]))

theorem nodup_map_fst_dset {α : Type} (l : List (ℕ × α)) (k : ℕ) (v : α)
    (h : (l.map Prod.fst).Nodup) : ((dset l k v).map Prod.fst).Nodup := by
  by_cases hm : k ∈ l.map Prod.fst
  · rw [map_fst_dset_of_mem l k v hm]
    exact h
  · rw [map_fst_dset_of_not_mem l k v hm]
    simp [List.nodup_append, h, hm]

theorem buildCurrent_fst_mem :
    ∀ (dets : List TDet) (cur : List (ℕ × TrackInfo)) (sts : List (ℕ × TrackState)) (a : ℕ),
      a ∈ (buildCurrent dets cur sts).1.map Prod.fst
        ↔ a ∈ cur.map Prod.fst ∨ a ∈ dets.map TDet.tid := by
  intro dets
  induction dets with
  | nil => intro cur sts a; simp [buildCurrent]
  | cons d rest ih =>
    intro cur sts a
    rw [buildCurrent, ih, mem_map_fst_dset]
    simp
    tauto

theorem buildCurrent_snd_mem :
    ∀ (dets : List TDet) (cur : List (ℕ × TrackInfo)) (sts : List (ℕ × TrackState)) (a : ℕ),
      a ∈ (buildCurrent dets cur sts).2.map Prod.fst
        ↔ a ∈ sts.map Prod.fst ∨ a ∈ dets.map TDet.tid := by
  intro dets
  induction dets with
  | nil => intro cur sts a; simp [buildCurrent]
  | cons d rest ih =>
    intro cur sts a
    rw [buildCurrent, ih, mem_map_fst_dset]
    simp
    tauto

theorem buildCurrent_snd_nodup :
    ∀ (dets : List TDet) (cur : List (ℕ × TrackInfo)) (sts : List (ℕ × TrackState)),
      (sts.map Prod.fst).Nodup → ((buildCurrent dets cur sts).2.map Prod.fst).Nodup := by
  intro dets
  induction dets with
  | nil => intro cur sts h; exact h
  | cons d rest ih =>
    intro cur sts h
    rw [buildCurrent]
    exact ih _ _ (nodup_map_fst_dset _ _ _ h)

theorem processTrack_fst (cfg : LineCfg) (current : List (ℕ × TrackInfo)) (ts : ℚ)
    (acc : List (ℕ × TrackState) × ℕ × ℕ × List CrossEvent) (t : ℕ) :
    (processTrack cfg current ts acc t).1.map Prod.fst = acc.1.map Prod.fst := by
  cases h1 : dlookup acc.1 t with
  | none => simp [processTrack, h1]
  | some st =>
    have hm : t ∈ acc.1.map Prod.fst := List.mem_map.mpr ⟨(t, st), dlookup_mem _ _ _ h1, rfl⟩
    cases h2 : dlookup current t with
    | none => simp [processTrack, h1, h2, map_fst_dset_of_mem _ _ _ hm]
    | some info => simp [processTrack, h1, h2, map_fst_dset_of_mem _ _ _ hm]

theorem crossLoop_fst (cfg : LineCfg) (current : List (ℕ × TrackInfo)) (ts : ℚ) :
    ∀ (keys : List ℕ) (acc : List (ℕ × TrackState) × ℕ × ℕ × List CrossEvent),
      (crossLoop cfg current ts keys acc).1.map Prod.fst = acc.1.map Prod.fst := by
  intro keys
  induction keys with
  | nil => intro acc; rfl
  | cons t rest ih =>
    intro acc
    rw [crossLoop, ih, processTrack_fst]

theorem processTrack_dlookup_other (cfg : LineCfg) (current : List (ℕ × TrackInfo)) (ts : ℚ)
    (acc : List (ℕ × TrackState) × ℕ × ℕ × List CrossEvent) (t k : ℕ) (hne : ¬ k = t) :
    dlookup (processTrack cfg current ts acc t).1 k = dlookup acc.1 k := by
  cases h1 : dlookup acc.1 t with
  | none => simp [processTrack, h1]
  | some st =>
    cases h2 : dlookup current t with
    | none => simp [processTrack, h1, h2, dlookup_dset, hne]
    | some info => simp [processTrack, h1, h2, dlookup_dset, hne]

theorem crossLoop_dlookup_not_mem (cfg : LineCfg) (current : List (ℕ × TrackInfo)) (ts : ℚ) :
    ∀ (keys : List ℕ) (acc : List (ℕ × TrackState) × ℕ × ℕ × List CrossEvent) (k : ℕ),
      k ∉ keys → dlookup (crossLoop cfg current ts keys acc).1 k = dlookup acc.1 k := by
  intro keys
  induction keys with
  | nil => intro acc k _; rfl
  | cons t rest ih =>
    intro acc k hk
    rw [crossLoop, ih _ k (fun hh => hk (by simp [hh])),
      processTrack_dlookup_other cfg current ts acc t k (fun hh => hk (by simp [hh]))]

/-- After the crossing loop has processed every stored key once (keys distinct),
each track absent from the current frame has `visible_frames = 0`. -/
theorem crossLoop_absent_zero (cfg : LineCfg) (current : List (ℕ × TrackInfo)) (ts : ℚ) :
    ∀ (keys : List ℕ) (acc : List (ℕ × TrackState) × ℕ × ℕ × List CrossEvent),
      keys.Nodup → (∀ x ∈ keys, x ∈ acc.1.map Prod.fst) →
      ∀ k ∈ keys, dlookup current k = none →
      ∃ st2, dlookup (crossLoop cfg current ts keys acc).1 k = some st2
        ∧ st2.visibleFrames = 0 := by
  intro keys
  induction keys with
  | nil => intro acc _ _ k hk; simp at hk
  | cons t rest ih =>
    intro acc hnd hmem k hk hcn
    rcases List.mem_cons.mp hk with rfl | hk2
    · obtain ⟨st, hst⟩ := dlookup_isSome_of_mem acc.1 k (hmem k (by simp))
      have hPT : (processTrack cfg current ts acc k).1
          = dset acc.1 k { st with visibleFrames := 0 } := by
        simp [processTrack, hst, hcn]
      have hnotin : k ∉ rest := (List.nodup_cons.mp hnd).1
      rw [crossLoop, crossLoop_dlookup_not_mem cfg current ts rest _ k hnotin, hPT,
        dlookup_dset, if_pos rfl]
      exact ⟨{ st with visibleFrames := 0 }, rfl, rfl⟩
    · rw [crossLoop]
      refine ih (processTrack cfg current ts acc t) (List.nodup_cons.mp hnd).2 ?_ k hk2 hcn
      intro x hx
      rw [processTrack_fst]
      exact hmem x (by simp [hx])

/-- C5: after every call to `LineCounter.update` (on a state whose track-state
dict has distinct keys, as every reachable state does), the per-track state map
contains exactly the track ids present in that call's tracked detections — the
state of every absent track is zeroed and deleted within the same call. -/
theorem claim_C5 (cfg : LineCfg) (s : CState) (dets : List TDet) (ts : ℚ)
    (hnd : (s.states.map Prod.fst).Nodup) (k : ℕ) :
    k ∈ (counterUpdate cfg s dets ts).1.states.map Prod.fst ↔ k ∈ dets.map TDet.tid := by
  have hstates : (counterUpdate cfg s dets ts).1.states
      = cleanup (buildCurrent dets [] s.states).1
          (crossLoop cfg (buildCurrent dets [] s.states).1 ts
            ((buildCurrent dets [] s.states).2.map Prod.fst)
            ((buildCurrent dets [] s.states).2, s.inCount, s.outCount, [])).1 := rfl
  have hnd1 : (((buildCurrent dets [] s.states).2.map Prod.fst)).Nodup :=
    buildCurrent_snd_nodup dets [] s.states hnd
  have hkeys2 : (crossLoop cfg (buildCurrent dets [] s.states).1 ts
      ((buildCurrent dets [] s.states).2.map Prod.fst)
      ((buildCurrent dets [] s.states).2, s.inCount, s.outCount, [])).1.map Prod.fst
      = (buildCurrent dets [] s.states).2.map Prod.fst :=
    crossLoop_fst cfg _ ts _ _
  constructor
  · intro hk
    rw [hstates] at hk
    simp only [cleanup] at hk
    obtain ⟨q, hq, hqk⟩ := List.mem_map.mp hk
    obtain ⟨hqmem, hqp⟩ := List.mem_filter.mp hq
    by_contra hnk
    have hcn : dlookup (buildCurrent dets [] s.states).1 k = none := by
      refine dlookup_eq_none _ _ ?_
      rw [buildCurrent_fst_mem]
      rintro (h | h)
      · simp at h
      · exact hnk h
    have hks2 : k ∈ (buildCurrent dets [] s.states).2.map Prod.fst := by
      rw [← hkeys2]
      exact List.mem_map.mpr ⟨q, hqmem, hqk⟩
    obtain ⟨st2, hst2, hv0⟩ := crossLoop_absent_zero cfg (buildCurrent dets [] s.states).1 ts
      ((buildCurrent dets [] s.states).2.map Prod.fst)
      ((buildCurrent dets [] s.states).2, s.inCount, s.outCount, [])
      hnd1 (fun x hx => hx) k hks2 hcn
    have hqq : q = (k, q.2) := by
      rw [← hqk]
    have hlq : dlookup (crossLoop cfg (buildCurrent dets [] s.states).1 ts
        ((buildCurrent dets [] s.states).2.map Prod.fst)
        ((buildCurrent dets [] s.states).2, s.inCount, s.outCount, [])).1 k = some q.2 := by
      refine mem_dlookup_of_nodup _ k q.2 (by rw [hkeys2]; exact hnd1) ?_
      rw [← hqq]
      exact hqmem
    have hq2 : q.2 = st2 := by
      rw [hlq] at hst2
      injection hst2
    rw [hqk, hcn] at hqp
    simp at hqp
    rw [hq2, hv0] at hqp
    exact hqp rfl
  · intro hk
    have hc : k ∈ (buildCurrent dets [] s.states).1.map Prod.fst := by
      rw [buildCurrent_fst_mem]
      simp [hk]
    have hs1 : k ∈ (buildCurrent dets [] s.states).2.map Prod.fst := by
      rw [buildCurrent_snd_mem]
      exact Or.inr hk
    have hs2 : k ∈ (crossLoop cfg (buildCurrent dets [] s.states).1 ts
        ((buildCurrent dets [] s.states).2.map Prod.fst)
        ((buildCurrent dets [] s.states).2, s.inCount, s.outCount, [])).1.map Prod.fst := by
      rw [hkeys2]
      exact hs1
    obtain ⟨q, hq, hqk⟩ := List.mem_map.mp hs2
    obtain ⟨v, hv⟩ := dlookup_isSome_of_mem (buildCurrent dets [] s.states).1 k hc
    rw [hstates]
    refine List.mem_map.mpr ⟨q, List.mem_filter.mpr ⟨hq, ?_⟩, hqk⟩
    rw [hqk, hv]
    rfl

/-- C5 witness: a state holding stale tracks 1 and 2 updated with a frame that
contains only track 3 keeps exactly track 3's state. -/
theorem claim_C5_witness :
    (([(1, initTrackState), (2, initTrackState)].map Prod.fst).Nodup
      ∧ ¬ (1 : ℕ) ∈ ([⟨⟨0, 0, 2, 2⟩, 1, 41, 3⟩] : List TDet).map TDet.tid
      ∧ (3 : ℕ) ∈ ([⟨⟨0, 0, 2, 2⟩, 1, 41, 3⟩] : List TDet).map TDet.tid)
    ∧ ((1 ∈ (counterUpdate cfgLine
          ⟨[(1, initTrackState), (2, initTrackState)], 0, 0⟩
          [⟨⟨0, 0, 2, 2⟩, 1, 41, 3⟩] 0).1.states.map Prod.fst
        ↔ 1 ∈ [⟨⟨0, 0, 2, 2⟩, 1, 41, 3⟩].map TDet.tid)
      ∧ (3 ∈ (counterUpdate cfgLine
          ⟨[(1, initTrackState), (2, initTrackState)], 0, 0⟩
          [⟨⟨0, 0, 2, 2⟩, 1, 41, 3⟩] 0).1.states.map Prod.fst
        ↔ 3 ∈ [⟨⟨0, 0, 2, 2⟩, 1, 41, 3⟩].map TDet.tid)) :=
  ⟨⟨by decide, by simp, by simp⟩,
   claim_C5 cfgLine ⟨[(1, initTrackState), (2, initTrackState)], 0, 0⟩
     [⟨⟨0, 0, 2, 2⟩, 1, 41, 3⟩] 0 (by decide) 1,
   claim_C5 cfgLine ⟨[(1, initTrackState), (2, initTrackState)], 0, 0⟩
     [⟨⟨0, 0, 2, 2⟩, 1, 41, 3⟩] 0 (by decide) 3⟩

/-! ## Helper lemmas -/

/-- With no high-confidence detections the first tracker pass changes nothing. -/
theorem phase1_nil_high (cfg : TrkCfg) :
    ∀ (l : List (ℕ × Trk)) (acc : List (ℕ × Trk) × List ℕ × List ℕ × List TDet),
      phase1 cfg [] l acc = acc := by
  intro l
  induction l with
  | nil => intro acc; rfl
  | cons q rest ih =>
    intro acc
    obtain ⟨tid, tr⟩ := q
    by_cases h : 0 < tr.lostFrames
    · simp [phase1, h, ih]
    · simp [phase1, h, bestMatchAux, ih]

/-! ## Claims C6, C7 (tracker) -/

/-- Tracker configuration used for the concrete tracker scenarios:
`track_thresh = 0.5`, `match_thresh = 0.5`, `min_box_area = 1`, `lost_ttl = 5`. -/
def cfgTrk : TrkCfg := ⟨1 / 2, 1 / 2, 1, 5⟩

/-- A high-confidence detection and a low-confidence detection on the same box. -/
def detHim : Det := ⟨⟨0, 0, 10, 10⟩, 9 / 10, 0⟩

/-- The low-confidence twin of `detHim`. -/
def detLow : Det := ⟨⟨0, 0, 10, 10⟩, 3 / 10, 0⟩

/-- C6: the claim fails on the code.  Feeding a fresh tracker one
high-confidence detection together with one overlapping low-confidence
detection makes `ByteTracker.update` return two output tuples that BOTH carry
track id 1: the track created in the second pass is immediately re-matched by
the third (low-confidence) pass, because that pass iterates over every track
not matched in the first pass — including tracks created this very frame — and
keeps no record of consumed low-confidence detections.  So the returned track
ids are not pairwise distinct and the claim's "one tuple per currently-matched
track" is violated. -/
theorem claim_C6_code_divergence :
    ((trackerUpdate cfgTrk initTrkState [detHim, detLow]).2.map TDet.tid = [1, 1])
    ∧ ¬ ((trackerUpdate cfgTrk initTrkState [detHim, detLow]).2.map TDet.tid).Nodup := by
  have h : (trackerUpdate cfgTrk initTrkState [detHim, detLow]).2.map TDet.tid = [1, 1] := by
    norm_num [trackerUpdate, cfgTrk, initTrkState, detHim, detLow, phase1, phase2, phase3,
      bestMatchAux, iou, boxArea, dset, derase, dlookup]
  refine ⟨h, ?_⟩
  rw [h]
  decide

/-- C7: lost-track bookkeeping.  First conjunct: a single stored track that
goes unmatched (empty frame) is deleted when its `lost_frames` has reached the
TTL, and otherwise has `lost_frames` incremented by one.  Second conjunct: an
unexpired track matched by a low-confidence detection (IoU at or above the
match threshold and positive) is revived in place with the same id,
`lost_frames` reset to 0 and age incremented.  Third conjunct: with TTL = 5, a
track whose object is absent for 6 consecutive updates leaves zero active
tracks. -/
theorem claim_C7 :
    (∀ (cfg : TrkCfg) (tid : ℕ) (tr : Trk) (nid : ℕ),
      trackerUpdate cfg ⟨[(tid, tr)], nid⟩ []
        = if cfg.lostTtl ≤ tr.lostFrames then (⟨[], nid⟩, [])
          else (⟨[(tid, { tr with lostFrames := tr.lostFrames + 1 })], nid⟩, []))
    ∧ (∀ (cfg : TrkCfg) (tid : ℕ) (tr : Trk) (nid : ℕ) (d : Det),
        d.conf < cfg.trackThresh → cfg.minBoxArea ≤ boxArea d.bbox →
        tr.lostFrames < cfg.lostTtl → 0 < iou tr.bbox d.bbox →
        cfg.matchThresh ≤ iou tr.bbox d.bbox →
        trackerUpdate cfg ⟨[(tid, tr)], nid⟩ [d]
          = (⟨[(tid, ⟨d.bbox, d.conf, d.cls, tr.age + 1, 0⟩)], nid⟩,
             [⟨d.bbox, d.conf, d.cls, tid⟩]))
    ∧ (runEmpty cfgTrk 6 (trackerUpdate cfgTrk initTrkState [detHim]).1).tracks = [] := by
  refine ⟨?_, ?_, ?_⟩
  · intro cfg tid tr nid
    by_cases h : cfg.lostTtl ≤ tr.lostFrames <;>
      simp [trackerUpdate, phase1_nil_high, phase2, phase3, bestMatchAux, h, derase, dset]
  · intro cfg tid tr nid d hconf harea hlost hiou0 hioum
    have h1 : ¬ cfg.trackThresh ≤ d.conf := not_le.mpr hconf
    have h2 : ¬ cfg.lostTtl ≤ tr.lostFrames := not_le.mpr hlost
    simp [trackerUpdate, harea, h1, hconf, phase1_nil_high, phase2, phase3,
      bestMatchAux, h2, hiou0, hioum, dset]
  · norm_num [runEmpty, trackerUpdate, cfgTrk, initTrkState, detHim, phase1, phase2, phase3,
      bestMatchAux, iou, boxArea, dset, derase, dlookup]

/-- C7 witness: the revival conjunct applied at a concrete unexpired track and
a concrete overlapping low-confidence detection. -/
theorem claim_C7_witness :
    (detLow.conf < cfgTrk.trackThresh ∧ cfgTrk.minBoxArea ≤ boxArea detLow.bbox
      ∧ (2 : ℕ) < cfgTrk.lostTtl ∧ 0 < iou ⟨0, 0, 10, 10⟩ detLow.bbox
      ∧ cfgTrk.matchThresh ≤ iou ⟨0, 0, 10, 10⟩ detLow.bbox)
    ∧ trackerUpdate cfgTrk ⟨[(7, ⟨⟨0, 0, 10, 10⟩, 9 / 10, 0, 3, 2⟩)], 9⟩ [detLow]
        = (⟨[(7, ⟨detLow.bbox, detLow.conf, detLow.cls, 4, 0⟩)], 9⟩,
           [⟨detLow.bbox, detLow.conf, detLow.cls, 7⟩]) :=
  ⟨by norm_num [cfgTrk, detLow, iou, boxArea],
   claim_C7.2.1 cfgTrk 7 ⟨⟨0, 0, 10, 10⟩, 9 / 10, 0, 3, 2⟩ 9 detLow
     (by norm_num [cfgTrk, detLow]) (by norm_num [cfgTrk, detLow, boxArea])
     (by norm_num [cfgTrk]) (by norm_num [cfgTrk, detLow, iou, boxArea])
     (by norm_num [cfgTrk, detLow, iou, boxArea])⟩

/-! ## Claims C8, C9 (drift monitor) -/

/-- Drift configuration for the concrete drift scenarios: enabled,
`ssim_threshold = 0.9`, `edge_iou_threshold = 0.7`, `brightness_var_min = 6`,
recalibrate-on-drift, 60-minute cooldown. -/
def cfgDrift : DriftCfg := ⟨true, 9 / 10, 7 / 10, 6, true, 60⟩

/-- A monitor state with a reference set and nine perfect similarity samples
already recorded. -/
def sDrift : DriftState := ⟨true, 100, List.replicate 9 1, [], [], none, false⟩

/-- C8 as stated is false on the code: `DriftMonitor.update` computes its
`camera_shifted` flag from the INSTANTANEOUS SSIM sample, not from the mean of
the most recent 10 samples.  With nine previous samples at 1.0 and a current
sample of 0.4 (threshold 0.9, edge IoU 1.0), `update` reports
`camera_shifted = true` although the mean of the most recent 10 samples —
whether taken before or after this update — is at least 0.9, and the edge
overlap is not below its threshold, so the claim's formula says `false`. -/
theorem claim_C8_counterexample :
    (driftUpdate cfgDrift sDrift (2 / 5) 1 100).2.cameraShifted = true
    ∧ ¬ (listMean (lastN 10 (driftUpdate cfgDrift sDrift (2 / 5) 1 100).1.ssimHistory)
          < cfgDrift.ssimThreshold
        ∨ (1 : ℚ) < cfgDrift.edgeIouThreshold)
    ∧ ¬ (listMean (lastN 10 sDrift.ssimHistory) < cfgDrift.ssimThreshold
        ∨ (1 : ℚ) < cfgDrift.edgeIouThreshold) := by
  refine ⟨?_, ?_, ?_⟩ <;>
    norm_num [driftUpdate, cfgDrift, sDrift, pushHist, lastN, listMean, List.replicate]

/-- C8 amended: for every frame processed after a reference is set (and with
the monitor enabled), the `camera_shifted` flag reported by
`DriftMonitor.update` is true exactly when the instantaneous SSIM sample is
below the similarity threshold OR the instantaneous edge IoU is below its
threshold; with the monitor disabled or no reference the flag is false. -/
theorem claim_C8_amended (cfg : DriftCfg) (s : DriftState) (sv ei bv : ℚ) :
    (driftUpdate cfg s sv ei bv).2.cameraShifted
      = (cfg.enabled && s.hasReference
          && (decide (sv < cfg.ssimThreshold) || decide (ei < cfg.edgeIouThreshold))) := by
  cases hcfg : cfg.enabled <;> cases hs : s.hasReference <;>
    simp [driftUpdate, hcfg, hs]

/-- C9: the claim is right and the code is wrong.  Immediately after drift is
flagged, with no recalibration ever recorded (`last_recal_time = None`, the
state of a freshly started monitor), `should_recalibrate()` returns `true` at
once: the code only applies the cooldown when a previous recalibration
timestamp exists.  The claim — and the repository's own test
`test_drift.py::test_recalibration_cooldown`, which asserts
`not monitor.should_recalibrate()` in exactly this state — requires `false`
until the cooldown has elapsed.  The state below is reached by one
`DriftMonitor.update` call whose SSIM sample is under the threshold. -/
theorem claim_C9_code_divergence :
    ((driftUpdate cfgDrift sDrift (1 / 2) 1 100).1.driftDetected = true
      ∧ (driftUpdate cfgDrift sDrift (1 / 2) 1 100).1.lastRecalTime = none)
    ∧ shouldRecalibrate cfgDrift (driftUpdate cfgDrift sDrift (1 / 2) 1 100).1 0 = true := by
  refine ⟨⟨?_, ?_⟩, ?_⟩ <;>
    norm_num [driftUpdate, shouldRecalibrate, cfgDrift, sDrift, pushHist]

/-! ## Claim C10 (tuner scoring) -/

/-- C10: under either selectable scoring policy, a run in which one track
crosses 3 times (all other tracks crossing exactly once) scores no higher than
the otherwise-identical run in which every track crosses exactly once, and the
`"stable_crossings"` reward equals
`unique_tracks × (single_crossing_tracks / unique_tracks)
  − 0.5 × double_crossing_tracks`, floored at 0. -/
theorem claim_C10 (others : List (ℕ × ℕ)) (t1 t2 : ℕ) (h1 : ∀ q ∈ others, q.2 = 1) :
    scoreRun "stable_crossings" (others.length + 3) (others ++ [(t1, 3)])
      ≤ scoreRun "stable_crossings" (others.length + 1) (others ++ [(t2, 1)])
    ∧ scoreRun "min_double_counts" (others.length + 3) (others ++ [(t1, 3)])
      ≤ scoreRun "min_double_counts" (others.length + 1) (others ++ [(t2, 1)])
    ∧ ∀ (ev : ℕ) (tracks : List (ℕ × ℕ)),
        scoreRun "stable_crossings" ev tracks
          = max 0 ((tracks.length : ℚ)
              * (((tracks.filter (fun q => q.2 == 1)).length : ℚ) / (tracks.length : ℚ))
              - ((tracks.filter (fun q => decide (1 < q.2))).length : ℚ) * (1 / 2)) := by
  have hsing : others.filter (fun q => q.2 == 1) = others :=
    List.filter_eq_self.mpr (fun a ha => by simp [h1 a ha])
  have hdbl : others.filter (fun q => decide (1 < q.2)) = [] :=
    List.filter_eq_nil_iff.mpr (fun a ha => by simp [h1 a ha])
  have hn : (0 : ℚ) ≤ (others.length : ℚ) := by positivity
  have hk : ((others.length : ℚ) + 1) ≠ 0 := by positivity
  refine ⟨?_, ?_, ?_⟩
  · have e1 : ((others.length : ℚ) + 1) * ((others.length : ℚ) / ((others.length : ℚ) + 1))
        = (others.length : ℚ) := by
      rw [← mul_div_assoc, mul_div_cancel_left₀ _ hk]
    have e2 : ((others.length : ℚ) + 1)
        * (((others.length : ℚ) + 1) / ((others.length : ℚ) + 1)) = (others.length : ℚ) + 1 := by
      rw [← mul_div_assoc, mul_div_cancel_left₀ _ hk]
    simp [scoreRun, List.filter_append, hsing, hdbl]
    right
    rw [e1, e2]
    constructor <;> linarith
  · have hle : ((others.length : ℚ) + 1) / ((others.length : ℚ) + 3) ≤ 1 :=
      div_le_one_of_le₀ (by linarith) (by linarith)
    simp [scoreRun, List.filter_append, hsing, hdbl]
    left
    linarith
  · intro ev tracks
    by_cases htl : tracks.length = 0
    · obtain rfl := List.length_eq_zero.mp htl
      simp [scoreRun]
    · simp [scoreRun, htl]

/-- C10 witness: both score comparisons and the reward formula instantiated on
a concrete pair of runs (two single-crossing tracks plus one track crossing
3 resp. 1 times). -/
theorem claim_C10_witness :
    (∀ q ∈ [((1 : ℕ), (1 : ℕ)), (2, 1)], q.2 = 1)
    ∧ (scoreRun "stable_crossings" 5 [(1, 1), (2, 1), (5, 3)]
        ≤ scoreRun "stable_crossings" 3 [(1, 1), (2, 1), (5, 1)]
      ∧ scoreRun "min_double_counts" 5 [(1, 1), (2, 1), (5, 3)]
        ≤ scoreRun "min_double_counts" 3 [(1, 1), (2, 1), (5, 1)]
      ∧ ∀ (ev : ℕ) (tracks : List (ℕ × ℕ)),
          scoreRun "stable_crossings" ev tracks
            = max 0 ((tracks.length : ℚ)
                * (((tracks.filter (fun q => q.2 == 1)).length : ℚ) / (tracks.length : ℚ))
                - ((tracks.filter (fun q => decide (1 < q.2))).length : ℚ) * (1 / 2))) :=
  ⟨by decide, claim_C10 [(1, 1), (2, 1)] 5 5 (by decide)⟩

end CC
